import Mathlib

/-!
Verification of the StriSeC string-search TCP server.

Shallow embedding of the request-handling pipeline:
* `src/search/search_algorithms.py` — the search-strategy family
  (`load_lines`, `search_cached`, `search_dynamic`, `search_mmap`,
  `search_grep`, `search_linecache`),
* `src/server.py` — `handle_client` and the dispatch installed by `main`,
* `src/ssl_utils.py` — `create_ssl_context`.

Modelling conventions:
* File contents, raw payloads and queries are `List Char`.  Python reads the
  corpus in text mode with UTF-8 decoding (`errors='ignore'`) and universal
  newlines; decoding is modelled as the identity on text and the universal
  newline translation (`\r\n` → `\n`, lone `\r` → `\n`) is `univNewlines`.
* Binary reads (mmap, grep) see the raw character sequence unchanged.
* Python's `str.rstrip(chars)` is `pyRstrip`.
* A Python `set` of lines is modelled as the list of stripped lines with
  membership lookup; duplicate collapse is invisible to membership queries.
* Fallible operations (`mmap` of an empty file, a missing `grep` executable)
  return `Except String Bool`, mirroring the exceptions raised by the code.
* The process-global `linecache` module cache is threaded explicitly as an
  `Option (List (List Char))` state (`none` = cold cache); once warm,
  `linecache.getline` never revalidates against the on-disk file, exactly as
  in CPython's `linecache` (no `checkcache` call anywhere in the repository).
-/

namespace StriSeC

/-- Python `s.rstrip(strip)`: remove from the end of `s` every trailing
character that occurs in `strip`. -/
def pyRstrip (strip : List Char) (s : List Char) : List Char :=
  (s.reverse.dropWhile (fun c => strip.contains c)).reverse

/-- Universal-newline translation performed by Python text-mode reads
(`open(path, 'r', ...)` with default `newline=None`): `"\r\n"` and a lone
`"\r"` both become `"\n"`. -/
def univNewlines : List Char → List Char
  | [] => []
  | [c] => if c = '\r' then ['\n'] else [c]
  | c :: d :: rest =>
    if c = '\r' then
      if d = '\n' then '\n' :: univNewlines rest
      else '\n' :: univNewlines (d :: rest)
    else c :: univNewlines (d :: rest)

/-- Python file-object line iteration: split the content at every `'\n'`,
each produced line keeping its trailing `'\n'`; a final unterminated line is
produced without one; an empty file yields no lines. -/
def fileLines : List Char → List (List Char)
  | [] => []
  | c :: cs =>
    if c = '\n' then ['\n'] :: fileLines cs
    else
      match fileLines cs with
      | [] => [[c]]
      | l :: ls => (c :: l) :: ls

/-- Embedding of `load_lines` (search_algorithms.py): read the whole file in text mode and
return the set `{line.rstrip('\n') for line in f}`.  The set is modelled as
the list of stripped lines (membership-equivalent). -/
def load_lines (content : List Char) : List (List Char) :=
  (fileLines (univNewlines content)).map (pyRstrip ['\n'])

/-- Embedding of `search_cached` (search_algorithms.py): `query in lines`. -/
def search_cached (lines : List (List Char)) (query : List Char) : Bool :=
  lines.contains query

/-- Embedding of `search_dynamic` (search_algorithms.py): stream the file in text mode and
test `line.rstrip('\n') == query` on each line. -/
def search_dynamic (content query : List Char) : Bool :=
  (fileLines (univNewlines content)).any (fun line => pyRstrip ['\n'] line == query)

/-- Embedding of `mm.find(query_bytes) != -1` inside `search_mmap`: the query occurs as a
contiguous subsequence of the raw file content (position irrelevant). -/
def mmap_found (content query : List Char) : Bool :=
  decide (query <:+: content)

/-- Embedding of `search_mmap` (search_algorithms.py): open the file in binary mode, map
it, and report whether `mm.find(query.encode())` succeeds anywhere.
`mmap.mmap` raises `ValueError` on an empty file, which the function's
`except Exception` clause re-raises as `RuntimeError`; that branch is the
`Except.error` case. -/
def search_mmap (content query : List Char) : Except String Bool :=
  if content = [] then Except.error "MMap search failed: cannot mmap an empty file"
  else Except.ok (mmap_found content query)

/-- Exit status of `grep query path` being zero, for a `query` free of
regular-expression metacharacters (the corpus queries of this repository,
e.g. `"4;0;1;28;0;7;5;0;"`, contain none): grep prints a line, and exits 0,
iff the pattern occurs as a substring of some line of the file. -/
def grep_exit_zero (content query : List Char) : Bool :=
  (fileLines content).any (fun line => decide (query <:+: pyRstrip ['\n'] line))

/-- Embedding of `search_grep` (search_algorithms.py): run `subprocess.check_output(['grep',
query, path])`; a `CalledProcessError` (non-zero exit, i.e. no match) yields
`False`; a `FileNotFoundError` from spawning (grep not installed) is
re-raised as `RuntimeError` — the `Except.error` case. -/
def search_grep (grepInstalled : Bool) (content query : List Char) : Except String Bool :=
  if grepInstalled then
    if grep_exit_zero content query then Except.ok true else Except.ok false
  else Except.error "grep command not found - requires grep installation"

/-- The `while True` loop of `search_linecache`: fetch line 1, 2, … ;
`linecache.getline` returns `''` past the last line, which breaks the loop;
each fetched line is stripped with `rstrip('\r\n')` and compared with the
normalised query.  Since every element produced by `fileLines` is nonempty,
walking the cached line list models the index-based loop exactly. -/
def linecacheLoop (query : List Char) : List (List Char) → Bool
  | [] => false
  | raw :: rest =>
    if raw = [] then false
    else if pyRstrip ['\r', '\n'] raw = query then true
    else linecacheLoop query rest

/-- Embedding of `search_linecache` (search_algorithms.py) with the state of the
process-global `linecache` cache made explicit.  On a cold cache (`none`)
`linecache.updatecache` reads the file in text mode and stores its line list;
on a warm cache the stored lines are used without consulting the file
(CPython's `getlines` returns the cached entry unconditionally).  Returns the
search result together with the cache state after the call. -/
def search_linecache (content : List Char) (cache : Option (List (List Char)))
    (query : List Char) : Bool × Option (List (List Char)) :=
  let qn := pyRstrip ['\r', '\n'] query
  match cache with
  | some ls => (linecacheLoop qn ls, some ls)
  | none =>
      let ls := fileLines (univNewlines content)
      (linecacheLoop qn ls, some ls)

/-- The configuration fields of server.py consumed by `handle_client`
(values already validated/normalised; the string-to-bool normalisation of
`REREAD_ON_QUERY` is folded into the `Bool`). -/
structure Config where
  reread_on_query : Bool
deriving DecidableEq

/-- Observable outcome of one `handle_client` call: the responses written to
the connection via `conn.sendall`, the number of times the corpus file was
read from disk during the call, the `linecache` cache state afterwards, and
whether the connection was closed (the `finally` block always closes it). -/
structure HandlerResult where
  sent : List String
  corpusReads : Nat
  cacheAfter : Option (List (List Char))
  closed : Bool
deriving DecidableEq

/-- Embedding of `handle_client` (server.py): receive `raw`; on an empty read return with
no response; otherwise strip trailing NUL/CR/LF, decode (identity on text),
and search — dynamic mode calls `search_linecache`, static mode looks the
query up in `lines_cache`, lazily loading the corpus with `load_lines` when
`lines_cache is None`.  Exactly one response is sent: `"STRING EXISTS\n"` or
`"STRING NOT FOUND\n"`.  Timing and logging are omitted; the `finally`
block's unconditional close is the `closed := true` field. -/
def handle_client (raw : List Char) (cfg : Config) (corpus : List Char)
    (lc : Option (List (List Char))) (lines_cache : Option (List (List Char))) :
    HandlerResult :=
  if raw = [] then ⟨[], 0, lc, true⟩
  else
    let query := pyRstrip [Char.ofNat 0, '\r', '\n'] raw
    if cfg.reread_on_query then
      let r := search_linecache corpus lc query
      ⟨[if r.1 then "STRING EXISTS\n" else "STRING NOT FOUND\n"],
       if lc.isSome then 0 else 1, r.2, true⟩
    else
      match lines_cache with
      | some cache =>
          ⟨[if search_cached cache query then "STRING EXISTS\n" else "STRING NOT FOUND\n"],
           0, lc, true⟩
      | none =>
          ⟨[if search_cached (load_lines corpus) query then "STRING EXISTS\n"
            else "STRING NOT FOUND\n"],
           1, lc, true⟩

/-- The boolean the selected strategy returns inside `handle_client` (the
`found` local of server.py) for a given non-empty payload. -/
def selectedFound (raw : List Char) (cfg : Config) (corpus : List Char)
    (lc : Option (List (List Char))) (lines_cache : Option (List (List Char))) : Bool :=
  let query := pyRstrip [Char.ofNat 0, '\r', '\n'] raw
  if cfg.reread_on_query then (search_linecache corpus lc query).1
  else
    match lines_cache with
    | some cache => search_cached cache query
    | none => search_cached (load_lines corpus) query

/-- The per-connection dispatch `main` installs:
`start_threaded_server(sock, lambda c,a: handle_client(c, a, cfg, logger), logger)`.
The lambda passes neither `lines_cache` nor anything else beyond `cfg` and
`logger`, so `handle_client` runs with its default `lines_cache = None` on
every connection. -/
def server_dispatch (raw : List Char) (cfg : Config) (corpus : List Char)
    (lc : Option (List (List Char))) : HandlerResult :=
  handle_client raw cfg corpus lc none

/-- Client-certificate verification mode of an `ssl.SSLContext`. -/
inductive VerifyMode where
  | cert_required
  | cert_none
deriving DecidableEq

/-- The observable configuration of the context built by
`create_ssl_context` (loaded chain, trust anchors, verification mode). -/
structure SSLCtx where
  certfile : String
  keyfile : String
  cafile : String
  verify_mode : VerifyMode
deriving DecidableEq

/-- Embedding of `create_ssl_context` (ssl_utils.py): `if not certfile or not keyfile:
return None` (Python falsiness of a path string: empty/None); otherwise build
a context with the chain, the CA bundle, and `verify_mode = CERT_REQUIRED`
when `verify_client` is truthy, else `CERT_NONE`. -/
def create_ssl_context (certfile keyfile : String) (verify_client : Bool)
    (cafile : String) : Option SSLCtx :=
  if certfile = "" || keyfile = "" then none
  else some ⟨certfile, keyfile, cafile,
    if verify_client then VerifyMode.cert_required else VerifyMode.cert_none⟩

/-- Spec definition (§4.2 / glossary), for comparison with the strategies:
"exact match" — the query, after stripping any trailing carriage-return /
line-feed, equals one complete line of the corpus (as read as text), after
the same stripping. -/
def exact_line_match (content query : List Char) : Bool :=
  (fileLines (univNewlines content)).any
    (fun line => pyRstrip ['\r', '\n'] line == pyRstrip ['\r', '\n'] query)

/-! ### Structural lemmas -/

/-- A `dropWhile` whose predicate rejects every element of the list is the
identity. -/
theorem dropWhile_eq_self_of_none {p : Char → Bool} :
    ∀ l : List Char, (∀ x ∈ l, p x = false) → l.dropWhile p = l
  | [], _ => rfl
  | x :: xs, h => by
      rw [List.dropWhile_cons, h x (List.mem_cons_self x xs)]
      simp

/-- Universal-newline translation leaves no carriage return in its output. -/
theorem univ_no_cr : ∀ u : List Char, ∀ c ∈ univNewlines u, c ≠ '\r' := by
  intro u
  induction u using univNewlines.induct with
  | case1 => simp [univNewlines]
  | case2 => simp [univNewlines]
  | case3 c h =>
      simp only [univNewlines, if_neg h, List.mem_singleton]
      rintro x rfl
      exact h
  | case4 rest ih => simpa [univNewlines] using ih
  | case5 d rest h ih => simpa [univNewlines, h] using ih
  | case6 c d rest h ih =>
      simp only [univNewlines, if_neg h, List.mem_cons]
      rintro x (rfl | hx)
      · exact h
      · exact ih x hx

/-- A CR/LF-free leading segment of the translated content is also a leading
segment of the raw content: `univNewlines` only rewrites `'\r'` characters,
which such a segment cannot reach. -/
theorem prefixTransfer : ∀ (u q : List Char), (∀ c ∈ q, c ≠ '\r' ∧ c ≠ '\n') →
    q <+: univNewlines u → q <+: u := by
  intro u
  induction u using univNewlines.induct with
  | case1 =>
      intro q _ hp
      simpa [univNewlines] using hp
  | case2 =>
      intro q hq hp
      cases q with
      | nil => exact List.nil_prefix
      | cons a q' =>
          rw [show univNewlines ['\r'] = ['\n'] from rfl] at hp
          rw [List.cons_prefix_cons] at hp
          exact absurd hp.1 (hq a (List.mem_cons_self a q')).2
  | case3 c h =>
      intro q hq hp
      simpa [univNewlines, h] using hp
  | case4 rest ih =>
      intro q hq hp
      rw [show univNewlines ('\r' :: '\n' :: rest) = '\n' :: univNewlines rest from by
        simp [univNewlines]] at hp
      cases q with
      | nil => exact List.nil_prefix
      | cons a q' =>
          rw [List.cons_prefix_cons] at hp
          exact absurd hp.1 (hq a (List.mem_cons_self a q')).2
  | case5 d rest h ih =>
      intro q hq hp
      rw [show univNewlines ('\r' :: d :: rest) = '\n' :: univNewlines (d :: rest) from by
        simp [univNewlines, h]] at hp
      cases q with
      | nil => exact List.nil_prefix
      | cons a q' =>
          rw [List.cons_prefix_cons] at hp
          exact absurd hp.1 (hq a (List.mem_cons_self a q')).2
  | case6 c d rest h ih =>
      intro q hq hp
      rw [show univNewlines (c :: d :: rest) = c :: univNewlines (d :: rest) from by
        simp [univNewlines, h]] at hp
      cases q with
      | nil => exact List.nil_prefix
      | cons a q' =>
          rw [List.cons_prefix_cons] at hp
          rw [List.cons_prefix_cons]
          exact ⟨hp.1, ih q' (fun x hx => hq x (List.mem_cons_of_mem a hx)) hp.2⟩

/-- A CR/LF-free contiguous segment of the translated content is a contiguous
segment of the raw content. -/
theorem infixTransfer : ∀ (u q : List Char), (∀ c ∈ q, c ≠ '\r' ∧ c ≠ '\n') →
    q <:+: univNewlines u → q <:+: u := by
  intro u
  induction u using univNewlines.induct with
  | case1 =>
      intro q _ hp
      simpa [univNewlines] using hp
  | case2 =>
      intro q hq hp
      rw [show univNewlines ['\r'] = ['\n'] from rfl, List.infix_cons_iff] at hp
      have hqnil : q = [] := by
        rcases hp with hp | hp
        · cases q with
          | nil => rfl
          | cons a q' =>
              rw [List.cons_prefix_cons] at hp
              exact absurd hp.1 (hq a (List.mem_cons_self a q')).2
        · simpa using hp
      subst hqnil
      exact List.nil_infix
  | case3 c h =>
      intro q hq hp
      simpa [univNewlines, h] using hp
  | case4 rest ih =>
      intro q hq hp
      rw [show univNewlines ('\r' :: '\n' :: rest) = '\n' :: univNewlines rest from by
        simp [univNewlines], List.infix_cons_iff] at hp
      rcases hp with hp | hp
      · cases q with
        | nil => exact List.nil_infix
        | cons a q' =>
            rw [List.cons_prefix_cons] at hp
            exact absurd hp.1 (hq a (List.mem_cons_self a q')).2
      · exact List.infix_cons (List.infix_cons (ih q hq hp))
  | case5 d rest h ih =>
      intro q hq hp
      rw [show univNewlines ('\r' :: d :: rest) = '\n' :: univNewlines (d :: rest) from by
        simp [univNewlines, h], List.infix_cons_iff] at hp
      rcases hp with hp | hp
      · cases q with
        | nil => exact List.nil_infix
        | cons a q' =>
            rw [List.cons_prefix_cons] at hp
            exact absurd hp.1 (hq a (List.mem_cons_self a q')).2
      · exact List.infix_cons (ih q hq hp)
  | case6 c d rest h ih =>
      intro q hq hp
      rw [show univNewlines (c :: d :: rest) = c :: univNewlines (d :: rest) from by
        simp [univNewlines, h], List.infix_cons_iff] at hp
      rcases hp with hp | hp
      · cases q with
        | nil => exact List.nil_infix
        | cons a q' =>
            rw [List.cons_prefix_cons] at hp
            have : q' <+: d :: rest :=
              prefixTransfer (d :: rest) q'
                (fun x hx => hq x (List.mem_cons_of_mem a hx)) hp.2
            exact List.IsPrefix.isInfix (List.cons_prefix_cons.mpr ⟨hp.1, this⟩)
      · exact List.infix_cons (ih q hq hp)

/-- Every line produced by `fileLines` is nonempty: file iteration never
yields an empty string (Python only returns `''` at EOF). -/
theorem fileLines_ne_nil : ∀ (u : List Char), ∀ l ∈ fileLines u, l ≠ [] := by
  intro u
  induction u with
  | nil => simp [fileLines]
  | cons c cs ih =>
      by_cases hc : c = '\n'
      · simp only [fileLines, if_pos hc, List.mem_cons]
        rintro l (rfl | hl)
        · simp
        · exact ih l hl
      · simp only [fileLines, if_neg hc]
        cases hfl : fileLines cs with
        | nil => simp
        | cons l₀ ls =>
            rintro l hl
            rw [List.mem_cons] at hl
            rcases hl with rfl | hl
            · simp
            · exact ih l (hfl ▸ List.mem_cons_of_mem l₀ hl)

/-- The first line produced by `fileLines` is a leading segment of the
content. -/
theorem fileLines_head_pre : ∀ (u l₀ : List Char) (ls : List (List Char)),
    fileLines u = l₀ :: ls → l₀ <+: u := by
  intro u
  induction u with
  | nil => intro l₀ ls h; simp [fileLines] at h
  | cons c cs ih =>
      intro l₀ ls h
      by_cases hc : c = '\n'
      · rw [fileLines, if_pos hc] at h
        injection h with h1 h2
        subst h1
        subst hc
        exact ⟨cs, rfl⟩
      · rw [fileLines, if_neg hc] at h
        revert h
        cases hfl : fileLines cs with
        | nil =>
            intro h
            injection h with h1 h2
            subst h1
            exact ⟨cs, rfl⟩
        | cons m ms =>
            intro h
            injection h with h1 h2
            subst h1
            exact List.cons_prefix_cons.mpr ⟨rfl, ih m ms hfl⟩

/-- Every line produced by `fileLines` is a contiguous segment of the
content. -/
theorem fileLines_mem_inf : ∀ (u : List Char), ∀ l ∈ fileLines u, l <:+: u := by
  intro u
  induction u with
  | nil => simp [fileLines]
  | cons c cs ih =>
      intro l hl
      by_cases hc : c = '\n'
      · rw [fileLines, if_pos hc] at hl
        rw [List.mem_cons] at hl
        rcases hl with rfl | hl
        · subst hc; exact List.IsPrefix.isInfix ⟨cs, rfl⟩
        · exact List.infix_cons (ih l hl)
      · rw [fileLines, if_neg hc] at hl
        revert hl
        cases hfl : fileLines cs with
        | nil =>
            intro hl
            rw [List.mem_singleton] at hl
            subst hl
            exact List.IsPrefix.isInfix ⟨cs, rfl⟩
        | cons m ms =>
            intro hl
            rw [List.mem_cons] at hl
            rcases hl with rfl | hl
            · exact List.IsPrefix.isInfix
                (List.cons_prefix_cons.mpr ⟨rfl, fileLines_head_pre cs m ms hfl⟩)
            · exact List.infix_cons (ih l (hfl ▸ List.mem_cons_of_mem m hl))

/-- Every line produced by `fileLines` is a newline-free core optionally
followed by one trailing `'\n'`. -/
theorem fileLines_shape : ∀ (u : List Char), ∀ l ∈ fileLines u,
    ∃ l', ('\n' ∉ l') ∧ (l = l' ∨ l = l' ++ ['\n']) := by
  intro u
  induction u with
  | nil => simp [fileLines]
  | cons c cs ih =>
      intro l hl
      by_cases hc : c = '\n'
      · rw [fileLines, if_pos hc] at hl
        rw [List.mem_cons] at hl
        rcases hl with rfl | hl
        · exact ⟨[], by simp⟩
        · exact ih l hl
      · rw [fileLines, if_neg hc] at hl
        revert hl
        cases hfl : fileLines cs with
        | nil =>
            intro hl
            rw [List.mem_singleton] at hl
            subst hl
            exact ⟨[c], by simp only [List.mem_singleton]; exact fun h => hc h.symm,
              Or.inl rfl⟩
        | cons m ms =>
            intro hl
            rw [List.mem_cons] at hl
            rcases hl with rfl | hl
            · obtain ⟨m', hm'nl, hm'⟩ := ih m (hfl ▸ List.mem_cons_self m ms)
              refine ⟨c :: m', ?_, ?_⟩
              · simp only [List.mem_cons, not_or]
                exact ⟨fun h => hc h.symm, hm'nl⟩
              · rcases hm' with rfl | rfl
                · exact Or.inl rfl
                · exact Or.inr rfl
            · exact ih l (hfl ▸ List.mem_cons_of_mem m hl)

/-- Stripping characters that do not occur in the list is the identity. -/
theorem pyRstrip_untouched (S : List Char) (l : List Char)
    (h : ∀ x ∈ l, S.contains x = false) : pyRstrip S l = l := by
  unfold pyRstrip
  rw [dropWhile_eq_self_of_none l.reverse (fun x hx => h x (List.mem_reverse.mp hx))]
  exact List.reverse_reverse l

/-- Stripping removes exactly one trailing strip-character from a list whose
remaining characters are not strip-characters. -/
theorem pyRstrip_strip_one (S : List Char) (l : List Char) (c : Char)
    (hc : S.contains c = true) (h : ∀ x ∈ l, S.contains x = false) :
    pyRstrip S (l ++ [c]) = l := by
  unfold pyRstrip
  rw [List.reverse_append]
  simp only [List.reverse_cons, List.reverse_nil, List.nil_append, List.singleton_append]
  rw [List.dropWhile_cons, hc]
  simp only [if_pos rfl]
  rw [dropWhile_eq_self_of_none l.reverse (fun x hx => h x (List.mem_reverse.mp hx))]
  exact List.reverse_reverse l

/-- Membership test against the singleton strip set `['\n']`. -/
theorem contains_nl_false {l' : List Char} (hnl : '\n' ∉ l') :
    ∀ x ∈ l', List.contains ['\n'] x = false := by
  intro x hx
  simp only [List.contains_cons, List.contains_nil, Bool.or_false, beq_eq_false_iff_ne]
  rintro rfl
  exact hnl hx

/-- On a line of the shape guaranteed by `fileLines_shape`, `rstrip('\n')`
returns exactly the newline-free core. -/
theorem rstrip_nl_eval (l l' : List Char) (hnl : '\n' ∉ l')
    (hshape : l = l' ∨ l = l' ++ ['\n']) : pyRstrip ['\n'] l = l' := by
  rcases hshape with rfl | rfl
  · exact pyRstrip_untouched _ _ (contains_nl_false hnl)
  · exact pyRstrip_strip_one _ _ _ (by simp) (contains_nl_false hnl)

/-- Core of claim C6: a query accepted by the sequential text scan occurs
byte-for-byte in the raw file content, so the memory-mapped probe accepts it
too. -/
theorem scan_imp_mmap_core : ∀ (fs q : List Char), search_dynamic fs q = true →
    search_mmap fs q = Except.ok true := by
  intro fs q h
  unfold search_dynamic at h
  rw [List.any_eq_true] at h
  obtain ⟨l, hl, he⟩ := h
  rw [beq_iff_eq] at he
  obtain ⟨l', hnl, hshape⟩ := fileLines_shape _ l hl
  have hq : q = l' := by rw [← he, rstrip_nl_eval l l' hnl hshape]
  have hpre : l' <+: l := by
    rcases hshape with rfl | rfl
    · exact List.prefix_rfl
    · exact List.prefix_append l' ['\n']
  have hinfU : q <:+: univNewlines fs := by
    rw [hq]
    exact List.IsInfix.trans (List.IsPrefix.isInfix hpre) (fileLines_mem_inf _ l hl)
  have hchars : ∀ c ∈ q, c ≠ '\r' ∧ c ≠ '\n' := by
    intro c hc
    refine ⟨univ_no_cr fs c (hinfU.subset hc), ?_⟩
    rintro rfl
    rw [hq] at hc
    exact hnl hc
  have hinf : q <:+: fs := infixTransfer fs q hchars hinfU
  have hfs : fs ≠ [] := by
    rintro rfl
    simp [univNewlines, fileLines] at hl
  unfold search_mmap
  rw [if_neg hfs]
  unfold mmap_found
  rw [decide_eq_true hinf]

/-- The index-driven `while True` loop of `search_linecache` agrees with a
plain any-over-lines search whenever no line is empty (which `fileLines`
guarantees). -/
theorem loop_eq_any : ∀ (q : List Char) (ls : List (List Char)), (∀ l ∈ ls, l ≠ []) →
    linecacheLoop q ls = ls.any (fun l => pyRstrip ['\r', '\n'] l == q) := by
  intro q ls
  induction ls with
  | nil => intro; rfl
  | cons raw rest ih =>
      intro h
      rw [linecacheLoop, if_neg (h raw (List.mem_cons_self raw rest))]
      by_cases heq : pyRstrip ['\r', '\n'] raw = q
      · rw [if_pos heq]
        simp [heq]
      · rw [if_neg heq, ih (fun l hl => h l (List.mem_cons_of_mem raw hl))]
        simp [heq]

/-- Membership in a mapped list agrees with an any-search through the
original list. -/
theorem contains_map_any (f : List Char → List Char) :
    ∀ (ls : List (List Char)) (q : List Char),
    (ls.map f).contains q = ls.any (fun l => f l == q) := by
  intro ls q
  induction ls with
  | nil => rfl
  | cons l rest ih =>
      simp only [List.map_cons, List.contains_cons, List.any_cons, ih]
      rw [Bool.beq_comm]

/-! ### Claim theorems -/

/-- Claim C1 (counter-evidence): the claim says that in static mode the
corpus is read exactly once at startup and no handler re-reads it, but the
dispatch `main` installs omits the preloaded set, so the handler receives
`lines_cache = None` and re-reads the corpus file (one `load_lines` disk read)
on every single connection. -/
theorem C1_static_dispatch_rereads_corpus :
    (server_dispatch "hello\n".toList ⟨false⟩ "hello\n".toList none).corpusReads = 1 ∧
    (server_dispatch "hello\n".toList ⟨false⟩ "hello\n".toList none).sent
      = ["STRING EXISTS\n"] := by
  constructor <;> decide

/-- Claim C2 (counter-evidence): the claim says every dynamic-mode query sees
the current on-disk corpus, but the handler uses `search_linecache`, whose
process-global cache is populated by the first query and never revalidated:
with the corpus first `"a\n"` and then edited to `"a\nb\n"`, the query `"b"`
answers STRING NOT FOUND both before and after the edit (third conjunct: a
genuine re-read of the edited file would have found the line). -/
theorem C2_dynamic_mode_serves_stale_cache :
    (handle_client "b\n".toList ⟨true⟩ "a\n".toList none none).sent
      = ["STRING NOT FOUND\n"] ∧
    (handle_client "b\n".toList ⟨true⟩ "a\nb\n".toList
        (handle_client "b\n".toList ⟨true⟩ "a\n".toList none none).cacheAfter none).sent
      = ["STRING NOT FOUND\n"] ∧
    search_dynamic "a\nb\n".toList "b".toList = true :=
  ⟨by decide, by decide, by decide⟩

/-- Claim C3: for every corpus content and every query, the cached-set
strategy applied to the loaded set and the sequential re-scan strategy on the
same snapshot return the same boolean. -/
theorem C3_cached_eq_dynamic : ∀ (content query : List Char),
    search_cached (load_lines content) query = search_dynamic content query := by
  intro content query
  unfold search_cached load_lines search_dynamic
  exact contains_map_any _ _ _

/-- Claim C4 (counter-evidence): the claim says `search_grep` matches only
exact complete lines, but the code invokes `grep query path` without `-x`,
which matches substrings: on the file `"xabcx\n"`, whose only line is not
`"abc"`, the query `"abc"` is reported found.  The error-taxonomy half of the
claim does hold: a missing grep executable is a distinct error, never `false`
(third conjunct). -/
theorem C4_grep_substring_match :
    search_grep true "xabcx\n".toList "abc".toList = Except.ok true ∧
    exact_line_match "xabcx\n".toList "abc".toList = false ∧
    search_grep false "xabcx\n".toList "abc".toList
      = Except.error "grep command not found - requires grep installation" :=
  ⟨rfl, by decide, rfl⟩

/-- Claim C5 (counterexample): not every strategy matches exactly the
complete stripped lines — the memory-mapped probe accepts the query `"b"` on
the file `"abc\n"`, although `"b"` is not a complete line of it. -/
theorem C5_counterexample_mmap_not_whole_line :
    search_mmap "abc\n".toList "b".toList = Except.ok true ∧
    exact_line_match "abc\n".toList "b".toList = false :=
  ⟨rfl, by decide⟩

/-- Claim C5 (amended): the linecache strategy (on a cold cache, i.e. reading
the current file) returns true exactly when the query, after stripping any
trailing carriage-return/line-feed, equals some complete line of the file
after the same stripping. -/
theorem C5_linecache_exact_line : ∀ (content query : List Char),
    (search_linecache content none query).1 = exact_line_match content query := by
  intro content query
  unfold search_linecache exact_line_match
  exact loop_eq_any _ _ (fileLines_ne_nil _)

/-- Claim C6: whenever the sequential re-scan strategy returns true, the
memory-mapped strategy returns true on the same snapshot; the converse fails,
witnessed by the file `"xy\n"` and the query `"x"`. -/
theorem C6_scan_implies_mmap_not_conversely :
    (∀ (content query : List Char), search_dynamic content query = true →
        search_mmap content query = Except.ok true) ∧
    (search_mmap "xy\n".toList "x".toList = Except.ok true ∧
     search_dynamic "xy\n".toList "x".toList = false) :=
  ⟨scan_imp_mmap_core, rfl, by decide⟩

/-- Concrete instantiation of the C6 implication at the file `"ab\n"` and
the query `"ab"`. -/
theorem C6_witness :
    search_mmap "ab\n".toList "ab".toList = Except.ok true :=
  C6_scan_implies_mmap_not_conversely.1 "ab\n".toList "ab".toList (by decide)

/-- Claim C7: a connection whose first receive returns zero bytes gets no
response bytes at all, and the connection is closed. -/
theorem C7_empty_payload_no_response : ∀ (cfg : Config) (corpus : List Char)
    (lc lines_cache : Option (List (List Char))),
    (handle_client [] cfg corpus lc lines_cache).sent = [] ∧
    (handle_client [] cfg corpus lc lines_cache).closed = true := by
  intro cfg corpus lc lines_cache
  constructor <;> rfl

/-- Claim C8: a connection with a non-empty payload receives exactly one
response: the literal `"STRING EXISTS\n"` when the selected strategy returned
true and the literal `"STRING NOT FOUND\n"` when it returned false, and
nothing else is written. -/
theorem C8_single_literal_response : ∀ (raw : List Char) (cfg : Config)
    (corpus : List Char) (lc lines_cache : Option (List (List Char))), raw ≠ [] →
    (handle_client raw cfg corpus lc lines_cache).sent
      = [if selectedFound raw cfg corpus lc lines_cache
          then "STRING EXISTS\n" else "STRING NOT FOUND\n"] := by
  intro raw cfg corpus lc lines_cache h
  rcases cfg with ⟨b⟩
  unfold handle_client selectedFound
  rw [if_neg h]
  cases b
  · cases lines_cache <;> rfl
  · rfl

/-- Concrete instantiation of C8: static mode, corpus `"x\n"`, payload
`"x\n"`. -/
theorem C8_witness :
    (handle_client "x\n".toList ⟨false⟩ "x\n".toList none none).sent
      = [if selectedFound "x\n".toList ⟨false⟩ "x\n".toList none none
          then "STRING EXISTS\n" else "STRING NOT FOUND\n"] :=
  C8_single_literal_response "x\n".toList ⟨false⟩ "x\n".toList none none (by decide)

/-- Claim C9: `create_ssl_context` returns `None` exactly when the
certificate path or the key path is absent (empty), and otherwise yields a
context whose client-verification mode is required when `verify_client` is
true and disabled when it is false. -/
theorem C9_ssl_context_none_iff_missing_paths : ∀ (certfile keyfile cafile : String)
    (verify_client : Bool),
    (create_ssl_context certfile keyfile verify_client cafile = none ↔
      (certfile = "" ∨ keyfile = "")) ∧
    (∀ ctx : SSLCtx, create_ssl_context certfile keyfile verify_client cafile = some ctx →
      ((ctx.verify_mode = VerifyMode.cert_required ↔ verify_client = true) ∧
       (ctx.verify_mode = VerifyMode.cert_none ↔ verify_client = false))) := by
  intro c k ca v
  unfold create_ssl_context
  constructor
  · by_cases h1 : c = "" <;> by_cases h2 : k = "" <;> simp [h1, h2]
  · intro ctx hctx
    by_cases h1 : c = ""
    · rw [if_pos (by simp [h1])] at hctx
      exact absurd hctx (by simp)
    · by_cases h2 : k = ""
      · rw [if_pos (by simp [h2])] at hctx
        exact absurd hctx (by simp)
      · rw [if_neg (by simp [h1, h2])] at hctx
        injection hctx with he
        rw [← he]
        cases v <;> simp

/-- Concrete instantiation of C9 at present cert and key paths with client
verification required. -/
theorem C9_witness :
    (VerifyMode.cert_required = VerifyMode.cert_required ↔ true = true) ∧
    (VerifyMode.cert_required = VerifyMode.cert_none ↔ true = false) :=
  (C9_ssl_context_none_iff_missing_paths "server.crt" "server.key" "ca.crt" true).2
    ⟨"server.crt", "server.key", "ca.crt", VerifyMode.cert_required⟩ rfl

/-- Claim C10: on every non-empty file the memory-mapped strategy reports the
empty query as found (find of the empty byte sequence succeeds at position
0), even on a file such as `"abc"` with no empty line, where the dynamic,
cached and linecache strategies all return false. -/
theorem C10_mmap_empty_query_always_true :
    (∀ content : List Char, content ≠ [] →
        search_mmap content [] = Except.ok true) ∧
    (search_dynamic "abc".toList [] = false ∧
     search_cached (load_lines "abc".toList) [] = false ∧
     (search_linecache "abc".toList none []).1 = false ∧
     search_mmap "abc".toList [] = Except.ok true) := by
  refine ⟨?_, by decide, by decide, by decide, rfl⟩
  intro content h
  unfold search_mmap
  rw [if_neg h]
  unfold mmap_found
  rw [decide_eq_true List.nil_infix]

/-- Concrete instantiation of C10 at the one-character file `"a"`. -/
theorem C10_witness : search_mmap "a".toList [] = Except.ok true :=
  C10_mmap_empty_query_always_true.1 "a".toList (by decide)

end StriSeC
